import Mathlib

/-!
Shallow embedding of the `delete-tag-and-release` tool (single JS source file).
The remote GitHub API is modelled by an `Event` trace: every outbound call and
every pacing delay the program performs is recorded as one event, in program
order.  Pure argument processing is translated directly; `logAndQuit`
(print + `process.exit(1)`) is modelled by the `Except`/`Outcome.fatal` error
channel.
-/

namespace DTR

/-- The option record assembled by `processArguments`:
`{ name, tag, draft }`, where `name`/`tag` may be `undefined` (here `none`)
and `draft` is always a boolean after the `?? false` default. -/
structure CliOption where
  name : Option String
  tag : Option String
  draft : Bool
deriving Repr, DecidableEq

/-- Result of `processOptionPart`: a one-field JS object.  The field value of
`tag`/`rel` parts may itself be `undefined` (part without a `:`), which the
later `find(it => it.field !== undefined)` skips; the `dft` field is always a
defined boolean (`value === "true"`). -/
inductive PartResult where
  | tagRes (value : Option String)
  | nameRes (value : Option String)
  | draftRes (value : Bool)
deriving Repr, DecidableEq

/-- A release as listed by the hosting platform. -/
structure RemoteRelease where
  id : Nat
  name : String
  tag_name : String
  draft : Bool
deriving Repr, DecidableEq

/-- A tag as listed by the hosting platform.  The code only ever reads
`name`; `commitSha` is carried to express that matching ignores it. -/
structure RemoteTag where
  name : String
  commitSha : String
deriving Repr, DecidableEq

/-- The remote repository state a run is performed against. -/
structure RemoteState where
  releases : List RemoteRelease
  tags : List RemoteTag
  /-- Tip commit of the `main` branch, as returned by `getBranch`. -/
  mainTipSha : String
deriving Repr, DecidableEq

/-- One remote API call or pacing delay, recorded in program order. -/
inductive Event where
  | listReleases
  | listTags
  | deleteRelease (release_id : Nat)
  | deleteRef (ref : String)
  | createRelease (tag_name : Option String) (name : Option String) (draft : Bool)
  | createRef (ref : String) (sha : Option String)
  | getBranch (branch : String)
  | delay (timeoutMs : Nat)
deriving Repr, DecidableEq

/-- How the process ends: `fatal` is `logAndQuit` (exit status 1), `completed`
carries the final `process.exitCode`. -/
inductive Outcome where
  | fatal (message : String)
  | completed (exitCode : Nat)
deriving Repr, DecidableEq

/-- The exit status of the process for a given outcome. -/
def Outcome.exitStatus : Outcome → Nat
  | .fatal _ => 1
  | .completed c => c

def API_DELAY_MS : Nat := 2500

def SUPPORTED_COMMANDS : List String := ["create", "check"]

/-- JS truthiness of an optional string: `!!v` is true iff the value is a
defined, non-empty string. -/
def truthy : Option String → Bool
  | none => false
  | some s => !s.isEmpty

/-- Source `isTagOption`: `!!option.tag && !option.name && !option.draft`. -/
def isTagOption (option : CliOption) : Bool :=
  truthy option.tag && !truthy option.name && !option.draft

/-- Source `isReleaseOption`: `!!option.name`. -/
def isReleaseOption (option : CliOption) : Bool :=
  truthy option.name

/-- JS `String.prototype.split` with a one-character separator, over the
character list: always at least one (possibly empty) group. -/
def splitCharList (sep : Char) : List Char → List (List Char)
  | [] => [[]]
  | c :: rest =>
    match splitCharList sep rest with
    | [] => [[c]]
    | g :: gs => if c == sep then [] :: g :: gs else (c :: g) :: gs

/-- JS `s.split(sep)` for a one-character separator. -/
def jsSplit (sep : Char) (s : String) : List String :=
  (splitCharList sep s.data).map (fun cs => ⟨cs⟩)

/-- Source `processOptionPart`: split one part on `":"`, dispatch on the key, and
fail (`logAndQuit`) on an unrecognized key. -/
def processOptionPart (option : String) : Except String PartResult :=
  let pieces := jsSplit ':' option
  let name := pieces.headD ""
  let value := pieces[1]?
  if name == "tag" then .ok (.tagRes value)
  else if name == "rel" then .ok (.nameRes value)
  else if name == "dft" then .ok (.draftRes (value == some "true"))
  else .error ("Unexpected option part: " ++ option)

/-- The defined `tag` field of a part result, if any (`it.tag !== undefined`). -/
def partTag : PartResult → Option String
  | .tagRes (some v) => some v
  | _ => none

/-- The defined `name` field of a part result, if any. -/
def partName : PartResult → Option String
  | .nameRes (some v) => some v
  | _ => none

/-- The defined `draft` field of a part result, if any (always defined for a
`dft` part). -/
def partDraft : PartResult → Option Bool
  | .draftRes b => some b
  | _ => none

/-- Source loop `rawOption.split(",").map(processOptionPart)`, aborting at the first
unrecognized part as `logAndQuit` does. -/
def processParts : List String → Except String (List PartResult)
  | [] => .ok []
  | s :: rest =>
    match processOptionPart s with
    | .error m => .error m
    | .ok p =>
      match processParts rest with
      | .error m => .error m
      | .ok ps => .ok (p :: ps)

/-- Assemble one `CliOption` from the processed parts: first defined
occurrence of each field, `draft` defaulting to `false`. -/
def assembleParts (ps : List PartResult) : CliOption :=
  { name := ps.findSome? partName
    tag := ps.findSome? partTag
    draft := (ps.findSome? partDraft).getD false }

/-- Processing of one raw option string inside the `for` loop of
`processArguments`. -/
def processRawOption (raw : String) : Except String CliOption :=
  (processParts (jsSplit ',' raw)).map assembleParts

/-- The `for (const rawOption of rawOptions)` loop, in order. -/
def processRawOptions : List String → Except String (List CliOption)
  | [] => .ok []
  | raw :: rest =>
    match processRawOption raw with
    | .error m => .error m
    | .ok o =>
      match processRawOptions rest with
      | .error m => .error m
      | .ok os => .ok (o :: os)

/-- Source `processArguments`: validate the command, parse every raw option, then
reject any option that classifies as neither a tag nor a release option. -/
def processArguments (command : String) (rawOptions : List String) :
    Except String (String × List CliOption) :=
  if !(SUPPORTED_COMMANDS.contains command) then
    .error ("Unsupported command: " ++ command)
  else
    match processRawOptions rawOptions with
    | .error m => .error m
    | .ok options =>
      match options.find? (fun o => !isTagOption o && !isReleaseOption o) with
      | some _ => .error "Expected option to be either a tag or release option"
      | none => .ok (command, options)

/-- JS template-literal rendering of a possibly-undefined string. -/
def jsStr : Option String → String
  | none => "undefined"
  | some s => s

/-- Source `deleteExistingReleases`: list (then delay), then delete each listed
release by id (each delete followed by a delay), in listing order. -/
def deleteExistingReleases (releases : List RemoteRelease) : List Event :=
  Event.listReleases :: Event.delay API_DELAY_MS ::
    releases.flatMap (fun r => [Event.deleteRelease r.id, Event.delay API_DELAY_MS])

/-- Source `deleteExistingTags`: list (then delay), then delete each listed tag via
`deleteRef "tags/<name>"` (each delete followed by a delay), in listing order. -/
def deleteExistingTags (tags : List RemoteTag) : List Event :=
  Event.listTags :: Event.delay API_DELAY_MS ::
    tags.flatMap (fun t => [Event.deleteRef ("tags/" ++ t.name), Event.delay API_DELAY_MS])

/-- The `for (const option of options)` loop of `runCreate`: one create call
plus a delay per option; an option that is neither kind hits `logAndQuit`
(the delay is not reached and later options are not processed). -/
def applyOptions (sha : Option String) : List CliOption → List Event × Option String
  | [] => ([], none)
  | o :: rest =>
    if isReleaseOption o then
      let r := applyOptions sha rest
      (Event.createRelease o.tag o.name o.draft :: Event.delay API_DELAY_MS :: r.1, r.2)
    else if isTagOption o then
      let r := applyOptions sha rest
      (Event.createRef ("refs/tags/" ++ jsStr o.tag) sha :: Event.delay API_DELAY_MS :: r.1, r.2)
    else
      ([], some "Unexpected option")

/-- Source `runCreate`: wipe releases, wipe tags, resolve the `main` tip commit once
iff some option is a tag option, then apply the options in input order.
Returns the event trace and `some message` if `logAndQuit` was reached. -/
def runCreate (st : RemoteState) (options : List CliOption) : List Event × Option String :=
  let hasTagOptions := options.any isTagOption
  let tagCommitSha : Option String := if hasTagOptions then some st.mainTipSha else none
  let branchEvents := if hasTagOptions then [Event.getBranch "main"] else []
  let applied := applyOptions tagCommitSha options
  (deleteExistingReleases st.releases ++ deleteExistingTags st.tags ++
      branchEvents ++ applied.1,
    applied.2)

/-- Source `checkTags`: one list call, then collect (in order) the options for which
no existing tag has `tag.name === option.tag`. -/
def checkTags (st : RemoteState) (options : List CliOption) :
    List Event × List CliOption :=
  ([Event.listTags],
    options.filter (fun o => (st.tags.find? (fun t => some t.name == o.tag)).isNone))

/-- Source `checkReleases`: one list call, then collect (in order) the options for
which no existing release matches on `tag_name`, `name` and `draft` at once. -/
def checkReleases (st : RemoteState) (options : List CliOption) :
    List Event × List CliOption :=
  ([Event.listReleases],
    options.filter (fun o =>
      (st.releases.find? (fun r =>
        some r.tag_name == o.tag && some r.name == o.name && r.draft == o.draft)).isNone))

/-- What a check run reports: the unmatched expectations of each partition
and the final `process.exitCode`. -/
structure CheckOutcome where
  tagsNotFound : List CliOption
  releasesNotFound : List CliOption
  exitCode : Nat
deriving Repr, DecidableEq

/-- Source `runChecks`: partition the batch, check tags then releases (both branches
are always taken: a JS array is truthy even when empty), and set
`process.exitCode = 1` iff either check reported missing entries. -/
def runChecks (st : RemoteState) (options : List CliOption) :
    List Event × CheckOutcome :=
  let tagOptions := options.filter isTagOption
  let releaseOptions := options.filter isReleaseOption
  let tagRes := checkTags st tagOptions
  let relRes := checkReleases st releaseOptions
  let hasError := !tagRes.2.isEmpty || !relRes.2.isEmpty
  (tagRes.1 ++ relRes.1,
    { tagsNotFound := tagRes.2
      releasesNotFound := relRes.2
      exitCode := if hasError then 1 else 0 })

/-- Source `run`: process the arguments, reject an empty option list, then dispatch
on the command.  Returns the full event trace and the process outcome. -/
def run (st : RemoteState) (command : String) (rawOptions : List String) :
    List Event × Outcome :=
  match processArguments command rawOptions with
  | .error msg => ([], Outcome.fatal msg)
  | .ok (cmd, options) =>
    if options.length == 0 then ([], Outcome.fatal "No options supplied.")
    else if cmd == "create" then
      let r := runCreate st options
      (r.1, match r.2 with
        | some m => Outcome.fatal m
        | none => Outcome.completed 0)
    else if cmd == "check" then
      let r := runChecks st options
      (r.1, Outcome.completed r.2.exitCode)
    else ([], Outcome.completed 0)

/-- The release id deleted by an event, if it is a delete-release call. -/
def eventDeleteReleaseId : Event → Option Nat
  | .deleteRelease i => some i
  | _ => none

/-- The ref deleted by an event, if it is a delete-ref call. -/
def eventDeleteRefTarget : Event → Option String
  | .deleteRef r => some r
  | _ => none

/-- Whether an event is one of the two creation calls. -/
def isCreateCall : Event → Bool
  | .createRelease _ _ _ => true
  | .createRef _ _ => true
  | _ => false

/-- Whether an event is the anchor-commit resolution call. -/
def isGetBranch : Event → Bool
  | .getBranch _ => true
  | _ => false

/-- Whether an event is a remote API call (anything but a pacing delay). -/
def isRemoteCall : Event → Bool
  | .delay _ => false
  | _ => true

/-- The remote calls that `runCreate`'s deletion and application phases wrap
with a trailing delay: list, delete and create calls (not `getBranch`). -/
def isPacedCall : Event → Bool
  | .listReleases => true
  | .listTags => true
  | .deleteRelease _ => true
  | .deleteRef _ => true
  | .createRelease _ _ _ => true
  | .createRef _ _ => true
  | _ => false

/-- Predicate `callsPaced p trace` holds iff every event selected by `p` is immediately
followed by the fixed 2500 ms pacing delay (so in particular no selected
event is last). -/
def callsPaced (p : Event → Bool) : List Event → Bool
  | [] => true
  | [e] => !(p e)
  | e :: e2 :: rest => (!(p e) || (e2 == Event.delay 2500)) && callsPaced p (e2 :: rest)

/-- Whether the key of one `key:value` part is one the grammar recognizes. -/
def recognizedKey (part : String) : Bool :=
  let k := (jsSplit ':' part).headD ""
  k == "tag" || k == "rel" || k == "dft"

/-- Sample remote state used to instantiate the theorems below. -/
def sampleState : RemoteState :=
  { releases := [{ id := 7, name := "R", tag_name := "t", draft := false }]
    tags := [{ name := "old", commitSha := "sha0" }]
    mainTipSha := "abc" }

/-- A sample release option (as assembled from `"rel:Beta,tag:v1.2.0,dft:true"`). -/
def relOpt : CliOption := { name := some "Beta", tag := some "v1.2.0", draft := true }

/-- A sample tag option (as assembled from `"tag:v1"`). -/
def tagOpt : CliOption := { name := none, tag := some "v1", draft := false }

/-! ### Helper lemmas -/

lemma flatMap_congr {α β : Type} {l : List α} {f g : α → List β}
    (h : ∀ x ∈ l, f x = g x) : l.flatMap f = l.flatMap g := by
  induction l with
  | nil => rfl
  | cons x rest ih =>
    simp only [List.flatMap_cons, h x (List.mem_cons_self x rest),
      ih (fun y hy => h y (List.mem_cons_of_mem x hy))]

lemma applyOptions_eq_flatMap (sha : Option String) (options : List CliOption)
    (h : ∀ o ∈ options, isTagOption o = true ∨ isReleaseOption o = true) :
    applyOptions sha options =
      (options.flatMap (fun o =>
        [if isReleaseOption o then Event.createRelease o.tag o.name o.draft
         else Event.createRef ("refs/tags/" ++ jsStr o.tag) sha,
         Event.delay API_DELAY_MS]), none) := by
  induction options with
  | nil => rfl
  | cons o rest ih =>
    have ho := h o (List.mem_cons_self o rest)
    have ihr := ih (fun y hy => h y (List.mem_cons_of_mem o hy))
    by_cases hr : isReleaseOption o = true
    · simp [applyOptions, hr, ihr, List.flatMap_cons]
    · have ht : isTagOption o = true := by
        rcases ho with h1 | h1
        · exact h1
        · exact absurd h1 hr
      simp [applyOptions, hr, ht, ihr, List.flatMap_cons]

lemma runCreate_eq (st : RemoteState) (options : List CliOption)
    (h : ∀ o ∈ options, isTagOption o = true ∨ isReleaseOption o = true) :
    runCreate st options =
      (deleteExistingReleases st.releases ++ deleteExistingTags st.tags ++
        (if options.any isTagOption then [Event.getBranch "main"] else []) ++
        options.flatMap (fun o =>
          [if isReleaseOption o then Event.createRelease o.tag o.name o.draft
           else Event.createRef ("refs/tags/" ++ jsStr o.tag) (some st.mainTipSha),
           Event.delay API_DELAY_MS]),
       none) := by
  by_cases hany : options.any isTagOption = true
  · simp only [runCreate]
    rw [applyOptions_eq_flatMap _ _ h]
    simp [hany]
  · have hne : options.any isTagOption = false := by
      exact Bool.eq_false_iff.mpr hany
    have hall : ∀ o ∈ options, isReleaseOption o = true := by
      intro o ho
      rcases h o ho with ht | hrel
      · exact absurd (List.any_eq_true.mpr ⟨o, ho, ht⟩) hany
      · exact hrel
    simp only [runCreate]
    rw [applyOptions_eq_flatMap _ _ h]
    have hfm : options.flatMap (fun o =>
        [if isReleaseOption o then Event.createRelease o.tag o.name o.draft
         else Event.createRef ("refs/tags/" ++ jsStr o.tag) none,
         Event.delay API_DELAY_MS]) =
      options.flatMap (fun o =>
        [if isReleaseOption o then Event.createRelease o.tag o.name o.draft
         else Event.createRef ("refs/tags/" ++ jsStr o.tag) (some st.mainTipSha),
         Event.delay API_DELAY_MS]) :=
      flatMap_congr (fun o ho => by simp [hall o ho])
    simp [hne, hfm]

lemma filterMap_some_map {α β : Type} (l : List α) (f : α → β) :
    l.filterMap (fun x => some (f x)) = l.map f := by
  induction l with
  | nil => rfl
  | cons x rest ih => simp [List.filterMap_cons, ih]

lemma filterMap_flatMap_pair {α β : Type} (l : List α) (f : α → Event) (d : Nat)
    (g : Event → Option β) (hd : g (Event.delay d) = none) :
    (l.flatMap (fun x => [f x, Event.delay d])).filterMap g =
      l.filterMap (fun x => g (f x)) := by
  induction l with
  | nil => rfl
  | cons x rest ih =>
    cases hgf : g (f x) <;>
      simp [List.flatMap_cons, List.filterMap_append, List.filterMap_cons, hd, hgf, ih]

lemma countP_flatMap_pair {α : Type} (l : List α) (f : α → Event) (d : Nat)
    (p : Event → Bool) (hd : p (Event.delay d) = false) :
    (l.flatMap (fun x => [f x, Event.delay d])).countP p =
      l.countP (fun x => p (f x)) := by
  induction l with
  | nil => rfl
  | cons x rest ih =>
    simp [List.flatMap_cons, List.countP_append, List.countP_cons, hd, ih, Nat.add_comm]

lemma mem_deleteExistingReleases {rs : List RemoteRelease} {e : Event}
    (he : e ∈ deleteExistingReleases rs) :
    e = Event.listReleases ∨ e = Event.delay API_DELAY_MS ∨
      ∃ r ∈ rs, e = Event.deleteRelease r.id := by
  simp only [deleteExistingReleases, List.mem_cons, List.mem_flatMap] at he
  rcases he with h | h | ⟨r, hr, hm⟩
  · exact Or.inl h
  · exact Or.inr (Or.inl h)
  · simp only [List.mem_cons, List.not_mem_nil, or_false] at hm
    rcases hm with h1 | h1
    · exact Or.inr (Or.inr ⟨r, hr, h1⟩)
    · exact Or.inr (Or.inl h1)

lemma mem_deleteExistingTags {ts : List RemoteTag} {e : Event}
    (he : e ∈ deleteExistingTags ts) :
    e = Event.listTags ∨ e = Event.delay API_DELAY_MS ∨
      ∃ t ∈ ts, e = Event.deleteRef ("tags/" ++ t.name) := by
  simp only [deleteExistingTags, List.mem_cons, List.mem_flatMap] at he
  rcases he with h | h | ⟨t, ht, hm⟩
  · exact Or.inl h
  · exact Or.inr (Or.inl h)
  · simp only [List.mem_cons, List.not_mem_nil, or_false] at hm
    rcases hm with h1 | h1
    · exact Or.inr (Or.inr ⟨t, ht, h1⟩)
    · exact Or.inr (Or.inl h1)

lemma mem_applyOptions {sha : Option String} {l : List CliOption} {e : Event}
    (he : e ∈ (applyOptions sha l).1) :
    e = Event.delay API_DELAY_MS ∨
      (∃ o ∈ l, e = Event.createRelease o.tag o.name o.draft) ∨
      (∃ o ∈ l, e = Event.createRef ("refs/tags/" ++ jsStr o.tag) sha) := by
  induction l with
  | nil => simp [applyOptions] at he
  | cons o rest ih =>
    by_cases hr : isReleaseOption o = true
    · simp only [applyOptions, hr, if_true, List.mem_cons] at he
      rcases he with h | h | h
      · exact Or.inr (Or.inl ⟨o, List.mem_cons_self o rest, h⟩)
      · exact Or.inl h
      · rcases ih h with h1 | ⟨p, hp, h1⟩ | ⟨p, hp, h1⟩
        · exact Or.inl h1
        · exact Or.inr (Or.inl ⟨p, List.mem_cons_of_mem o hp, h1⟩)
        · exact Or.inr (Or.inr ⟨p, List.mem_cons_of_mem o hp, h1⟩)
    · by_cases ht : isTagOption o = true
      · simp only [applyOptions, hr, ht, if_true, if_false, Bool.false_eq_true,
          List.mem_cons] at he
        rcases he with h | h | h
        · exact Or.inr (Or.inr ⟨o, List.mem_cons_self o rest, h⟩)
        · exact Or.inl h
        · rcases ih h with h1 | ⟨p, hp, h1⟩ | ⟨p, hp, h1⟩
          · exact Or.inl h1
          · exact Or.inr (Or.inl ⟨p, List.mem_cons_of_mem o hp, h1⟩)
          · exact Or.inr (Or.inr ⟨p, List.mem_cons_of_mem o hp, h1⟩)
      · simp [applyOptions, hr, ht] at he

lemma applyOptions_countP_getBranch (sha : Option String) (l : List CliOption) :
    ((applyOptions sha l).1).countP isGetBranch = 0 := by
  apply List.countP_eq_zero.mpr
  intro e he
  rcases mem_applyOptions he with h | ⟨o, _, h⟩ | ⟨o, _, h⟩ <;> subst h <;> simp [isGetBranch]

/-! ### C1 -/

/-- C1: against a repository with releases `R` and tags `T` and a validated
option batch `O`, create mode aborts nowhere and its trace is exactly: list
releases, then one delete-release per existing release in listing order, then
list tags, then one delete-tag per existing tag in listing order, then (iff a
tag option exists) the anchor resolution, then one create per option in input
order — every delete and create (and both list calls) immediately followed by
the pacing delay; so there are exactly `|R|` delete-release calls, `|T|`
delete-tag calls and `|O|` create calls, and all deletions precede all
creations. -/
theorem create_phase_trace (st : RemoteState) (options : List CliOption)
    (h : ∀ o ∈ options, isTagOption o = true ∨ isReleaseOption o = true) :
    (runCreate st options).2 = none ∧
    (runCreate st options).1 =
      deleteExistingReleases st.releases ++ deleteExistingTags st.tags ++
        (if options.any isTagOption then [Event.getBranch "main"] else []) ++
        options.flatMap (fun o =>
          [if isReleaseOption o then Event.createRelease o.tag o.name o.draft
           else Event.createRef ("refs/tags/" ++ jsStr o.tag) (some st.mainTipSha),
           Event.delay API_DELAY_MS]) ∧
    (runCreate st options).1.filterMap eventDeleteReleaseId =
      st.releases.map RemoteRelease.id ∧
    (runCreate st options).1.filterMap eventDeleteRefTarget =
      st.tags.map (fun t => "tags/" ++ t.name) ∧
    (runCreate st options).1.countP isCreateCall = options.length := by
  have he := runCreate_eq st options h
  have htrace : (runCreate st options).1 =
      deleteExistingReleases st.releases ++ deleteExistingTags st.tags ++
        (if options.any isTagOption then [Event.getBranch "main"] else []) ++
        options.flatMap (fun o =>
          [if isReleaseOption o then Event.createRelease o.tag o.name o.draft
           else Event.createRef ("refs/tags/" ++ jsStr o.tag) (some st.mainTipSha),
           Event.delay API_DELAY_MS]) := by rw [he]
  have hcreateOfOpt : ∀ o : CliOption,
      (if isReleaseOption o then Event.createRelease o.tag o.name o.draft
       else Event.createRef ("refs/tags/" ++ jsStr o.tag) (some st.mainTipSha)) =
        Event.createRelease o.tag o.name o.draft ∨
      (if isReleaseOption o then Event.createRelease o.tag o.name o.draft
       else Event.createRef ("refs/tags/" ++ jsStr o.tag) (some st.mainTipSha)) =
        Event.createRef ("refs/tags/" ++ jsStr o.tag) (some st.mainTipSha) := by
    intro o
    by_cases hc : isReleaseOption o = true <;> simp [hc]
  refine ⟨by rw [he], htrace, ?_, ?_, ?_⟩
  · rw [htrace]
    simp only [deleteExistingReleases, deleteExistingTags, List.filterMap_append,
      List.filterMap_cons, eventDeleteReleaseId]
    rw [filterMap_flatMap_pair _ _ _ _ rfl, filterMap_flatMap_pair _ _ _ _ rfl,
      filterMap_flatMap_pair _ _ _ _ rfl]
    have h2 : (st.tags.filterMap fun t =>
        eventDeleteReleaseId (Event.deleteRef ("tags/" ++ t.name))) = [] := by
      simp [eventDeleteReleaseId]
    have h3 : (List.filterMap eventDeleteReleaseId
        (if options.any isTagOption then [Event.getBranch "main"] else [])) = [] := by
      by_cases hc : options.any isTagOption = true <;> simp [hc, eventDeleteReleaseId]
    have h4 : (options.filterMap fun o => eventDeleteReleaseId
        (if isReleaseOption o then Event.createRelease o.tag o.name o.draft
         else Event.createRef ("refs/tags/" ++ jsStr o.tag) (some st.mainTipSha))) = [] := by
      apply List.filterMap_eq_nil_iff.mpr
      intro o ho
      rcases hcreateOfOpt o with hco | hco <;> rw [hco] <;> rfl
    rw [h2, h3, h4]
    simp only [List.append_nil, List.nil_append]
    exact filterMap_some_map _ _
  · rw [htrace]
    simp only [deleteExistingReleases, deleteExistingTags, List.filterMap_append,
      List.filterMap_cons, eventDeleteRefTarget]
    rw [filterMap_flatMap_pair _ _ _ _ rfl, filterMap_flatMap_pair _ _ _ _ rfl,
      filterMap_flatMap_pair _ _ _ _ rfl]
    have h1 : (st.releases.filterMap fun r =>
        eventDeleteRefTarget (Event.deleteRelease r.id)) = [] := by
      simp [eventDeleteRefTarget]
    have h3 : (List.filterMap eventDeleteRefTarget
        (if options.any isTagOption then [Event.getBranch "main"] else [])) = [] := by
      by_cases hc : options.any isTagOption = true <;> simp [hc, eventDeleteRefTarget]
    have h4 : (options.filterMap fun o => eventDeleteRefTarget
        (if isReleaseOption o then Event.createRelease o.tag o.name o.draft
         else Event.createRef ("refs/tags/" ++ jsStr o.tag) (some st.mainTipSha))) = [] := by
      apply List.filterMap_eq_nil_iff.mpr
      intro o ho
      rcases hcreateOfOpt o with hco | hco <;> rw [hco] <;> rfl
    rw [h1, h3, h4]
    simp only [List.append_nil, List.nil_append]
    exact filterMap_some_map _ _
  · rw [htrace]
    simp only [deleteExistingReleases, deleteExistingTags, List.countP_append,
      List.countP_cons, isCreateCall]
    rw [countP_flatMap_pair _ _ _ _ rfl, countP_flatMap_pair _ _ _ _ rfl,
      countP_flatMap_pair _ _ _ _ rfl]
    have h1 : (st.releases.countP fun r => isCreateCall (Event.deleteRelease r.id)) = 0 := by
      simp [isCreateCall]
    have h2 : (st.tags.countP fun t =>
        isCreateCall (Event.deleteRef ("tags/" ++ t.name))) = 0 := by
      simp [isCreateCall]
    have h3 : (List.countP isCreateCall
        (if options.any isTagOption then [Event.getBranch "main"] else [])) = 0 := by
      by_cases hc : options.any isTagOption = true <;> simp [hc, isCreateCall]
    have h4 : (options.countP fun o => isCreateCall
        (if isReleaseOption o then Event.createRelease o.tag o.name o.draft
         else Event.createRef ("refs/tags/" ++ jsStr o.tag) (some st.mainTipSha))) =
        options.length := by
      apply List.countP_eq_length.mpr
      intro o ho
      rcases hcreateOfOpt o with hco | hco <;> rw [hco] <;> rfl
    rw [h1, h2, h3, h4]
    simp [isCreateCall]

/-- Witness for C1 at a concrete repository state and batch. -/
theorem create_phase_trace_witness :
    (runCreate sampleState [relOpt, tagOpt]).2 = none ∧
    (runCreate sampleState [relOpt, tagOpt]).1 =
      deleteExistingReleases sampleState.releases ++
        deleteExistingTags sampleState.tags ++
        (if ([relOpt, tagOpt] : List CliOption).any isTagOption then
          [Event.getBranch "main"] else []) ++
        ([relOpt, tagOpt] : List CliOption).flatMap (fun o =>
          [if isReleaseOption o then Event.createRelease o.tag o.name o.draft
           else Event.createRef ("refs/tags/" ++ jsStr o.tag) (some sampleState.mainTipSha),
           Event.delay API_DELAY_MS]) ∧
    (runCreate sampleState [relOpt, tagOpt]).1.filterMap eventDeleteReleaseId =
      sampleState.releases.map RemoteRelease.id ∧
    (runCreate sampleState [relOpt, tagOpt]).1.filterMap eventDeleteRefTarget =
      sampleState.tags.map (fun t => "tags/" ++ t.name) ∧
    (runCreate sampleState [relOpt, tagOpt]).1.countP isCreateCall =
      ([relOpt, tagOpt] : List CliOption).length :=
  create_phase_trace sampleState [relOpt, tagOpt] (by decide)

/-! ### C2 -/

/-- C2: in create mode, if the batch contains a tag option the anchor commit
is resolved exactly once (one `getBranch` call in the whole trace) and every
created tag ref carries that same resolved commit; with no tag option in the
batch, no `getBranch` call is issued at all. -/
theorem anchor_commit_resolution (st : RemoteState) (options : List CliOption) :
    (options.any isTagOption = true →
      ((runCreate st options).1.countP isGetBranch = 1 ∧
        ∀ e ∈ (runCreate st options).1, ∀ ref sha, e = Event.createRef ref sha →
          sha = some st.mainTipSha)) ∧
    (options.any isTagOption = false →
      (runCreate st options).1.countP isGetBranch = 0) := by
  have hun : (runCreate st options).1 =
      deleteExistingReleases st.releases ++ deleteExistingTags st.tags ++
        (if options.any isTagOption then [Event.getBranch "main"] else []) ++
        (applyOptions (if options.any isTagOption then some st.mainTipSha else none)
          options).1 := rfl
  have hA : (deleteExistingReleases st.releases).countP isGetBranch = 0 := by
    apply List.countP_eq_zero.mpr
    intro e he
    rcases mem_deleteExistingReleases he with h | h | ⟨r, _, h⟩ <;>
      subst h <;> simp [isGetBranch]
  have hB : (deleteExistingTags st.tags).countP isGetBranch = 0 := by
    apply List.countP_eq_zero.mpr
    intro e he
    rcases mem_deleteExistingTags he with h | h | ⟨t, _, h⟩ <;>
      subst h <;> simp [isGetBranch]
  constructor
  · intro hany
    constructor
    · rw [hun]
      simp only [List.countP_append, hA, hB, applyOptions_countP_getBranch, hany,
        if_true]
      simp [List.countP_cons, isGetBranch]
    · intro e he ref sha hes
      rw [hun] at he
      simp only [List.mem_append] at he
      rcases he with ((hd | hd) | hd) | hd
      · rcases mem_deleteExistingReleases hd with h | h | ⟨r, _, h⟩ <;>
          subst hes <;> simp at h
      · rcases mem_deleteExistingTags hd with h | h | ⟨t, _, h⟩ <;>
          subst hes <;> simp at h
      · rw [hany] at hd
        subst hes
        simp at hd
      · rw [hany] at hd
        simp only [if_true] at hd
        rcases mem_applyOptions hd with h | ⟨o, _, h⟩ | ⟨o, _, h⟩
        · subst hes; simp at h
        · subst hes; simp at h
        · subst hes
          injection h with h1 h2
  · intro hnone
    rw [hun]
    simp only [List.countP_append, hA, hB, applyOptions_countP_getBranch, hnone,
      Bool.false_eq_true, if_false]
    simp

/-- Witness for C2 at a concrete state, for a batch with a tag option and for
one without. -/
theorem anchor_commit_resolution_witness :
    ((([relOpt, tagOpt] : List CliOption).any isTagOption = true →
      ((runCreate sampleState [relOpt, tagOpt]).1.countP isGetBranch = 1 ∧
        ∀ e ∈ (runCreate sampleState [relOpt, tagOpt]).1, ∀ ref sha,
          e = Event.createRef ref sha → sha = some sampleState.mainTipSha)) ∧
    (([relOpt, tagOpt] : List CliOption).any isTagOption = false →
      (runCreate sampleState [relOpt, tagOpt]).1.countP isGetBranch = 0)) ∧
    (([relOpt] : List CliOption).any isTagOption = false →
      (runCreate sampleState [relOpt]).1.countP isGetBranch = 0) :=
  ⟨anchor_commit_resolution sampleState [relOpt, tagOpt],
    (anchor_commit_resolution sampleState [relOpt]).2⟩

/-! ### C3 -/

lemma not_mem_filter_iff {α : Type} {l : List α} {p : α → Bool} {x : α}
    (hx : x ∈ l) : x ∉ l.filter p ↔ p x = false := by
  simp [List.mem_filter, hx]

/-- C3: in check mode a tag expectation is matched iff some existing tag has
the same name (the commit SHA plays no role: rewriting every tag's SHA leaves
the unmatched list unchanged), and a release expectation is matched iff some
existing release agrees on `tag_name`, `name` and `draft` all at once. -/
theorem check_match_semantics (st : RemoteState) (options : List CliOption)
    (o : CliOption) (ho : o ∈ options) :
    (o ∉ (checkTags st options).2 ↔ ∃ t ∈ st.tags, some t.name = o.tag) ∧
    (o ∉ (checkReleases st options).2 ↔
      ∃ r ∈ st.releases,
        some r.tag_name = o.tag ∧ some r.name = o.name ∧ r.draft = o.draft) ∧
    (∀ g : RemoteTag → String,
      (checkTags { st with
          tags := st.tags.map (fun t => { t with commitSha := g t }) } options).2 =
        (checkTags st options).2) := by
  refine ⟨?_, ?_, ?_⟩
  · rw [show (checkTags st options).2 = options.filter (fun o =>
        (st.tags.find? (fun t => some t.name == o.tag)).isNone) from rfl,
      not_mem_filter_iff ho]
    rw [← Bool.not_eq_true, Option.isNone_iff_eq_none, List.find?_eq_none]
    push_neg
    simp
  · rw [show (checkReleases st options).2 = options.filter (fun o =>
        (st.releases.find? (fun r =>
          some r.tag_name == o.tag && some r.name == o.name &&
            r.draft == o.draft)).isNone) from rfl,
      not_mem_filter_iff ho]
    rw [← Bool.not_eq_true, Option.isNone_iff_eq_none, List.find?_eq_none]
    push_neg
    simp [and_assoc]
  · intro g
    show options.filter _ = options.filter _
    apply List.filter_congr
    intro x _
    have hfind : (st.tags.map (fun t => { t with commitSha := g t })).find?
        (fun t => some t.name == x.tag) =
        (st.tags.find? (fun t => some t.name == x.tag)).map
          (fun t => { t with commitSha := g t }) :=
      List.find?_map _ _
    rw [hfind]
    cases st.tags.find? (fun t => some t.name == x.tag) <;> rfl

/-- Witness for C3 at a concrete state and options. -/
theorem check_match_semantics_witness :
    (tagOpt ∉ (checkTags sampleState [tagOpt]).2 ↔
      ∃ t ∈ sampleState.tags, some t.name = tagOpt.tag) ∧
    (tagOpt ∉ (checkReleases sampleState [tagOpt]).2 ↔
      ∃ r ∈ sampleState.releases,
        some r.tag_name = tagOpt.tag ∧ some r.name = tagOpt.name ∧
          r.draft = tagOpt.draft) ∧
    (∀ g : RemoteTag → String,
      (checkTags { sampleState with
          tags := sampleState.tags.map (fun t => { t with commitSha := g t }) }
          [tagOpt]).2 =
        (checkTags sampleState [tagOpt]).2) :=
  check_match_semantics sampleState [tagOpt] tagOpt (by decide)

/-! ### C4 -/

lemma processArguments_ok_inv {command : String} {raws : List String}
    {cmd : String} {opts : List CliOption}
    (h : processArguments command raws = .ok (cmd, opts)) :
    cmd = command ∧ processRawOptions raws = .ok opts ∧
      opts.find? (fun o => !isTagOption o && !isReleaseOption o) = none := by
  unfold processArguments at h
  by_cases hc : SUPPORTED_COMMANDS.contains command = true
  · simp only [hc, Bool.not_true, Bool.false_eq_true, if_false] at h
    cases hro : processRawOptions raws with
    | error m => rw [hro] at h; cases h
    | ok options =>
      rw [hro] at h
      have h' : (match options.find? (fun o => !isTagOption o && !isReleaseOption o) with
          | some _ => (Except.error "Expected option to be either a tag or release option" :
              Except String (String × List CliOption))
          | none => Except.ok (command, options)) = Except.ok (cmd, opts) := h
      cases hf : options.find? (fun o => !isTagOption o && !isReleaseOption o) with
      | some o => rw [hf] at h'; cases h'
      | none =>
        rw [hf] at h'
        injection h' with h1
        injection h1 with h2 h3
        subst h2; subst h3
        exact ⟨rfl, rfl, hf⟩
  · have hcf : SUPPORTED_COMMANDS.contains command = false := Bool.eq_false_iff.mpr hc
    rw [hcf] at h
    cases h

lemma run_of_processArguments_error {st : RemoteState} {command : String}
    {raws : List String} {m : String}
    (h : processArguments command raws = .error m) :
    run st command raws = ([], Outcome.fatal m) := by
  unfold run
  rw [h]

lemma processArguments_error_of_bad {command : String} {raws : List String}
    {opts : List CliOption}
    (hc : SUPPORTED_COMMANDS.contains command = true)
    (hro : processRawOptions raws = .ok opts)
    (hbad : ∃ o ∈ opts, (!isTagOption o && !isReleaseOption o) = true) :
    processArguments command raws =
      .error "Expected option to be either a tag or release option" := by
  unfold processArguments
  simp only [hc, Bool.not_true, Bool.false_eq_true, if_false]
  rw [hro]
  have hs : (opts.find? (fun o => !isTagOption o && !isReleaseOption o)).isSome :=
    List.find?_isSome.mpr hbad
  obtain ⟨o, ho⟩ := Option.isSome_iff_exists.mp hs
  show (match opts.find? (fun o => !isTagOption o && !isReleaseOption o) with
      | some _ => (Except.error "Expected option to be either a tag or release option" :
          Except String (String × List CliOption))
      | none => Except.ok (command, opts)) =
    Except.error "Expected option to be either a tag or release option"
  rw [ho]

lemma isTagOption_eq_false_of_release {o : CliOption}
    (h : isReleaseOption o = true) : isTagOption o = false := by
  unfold isReleaseOption at h
  simp [isTagOption, h]

/-- C4: every option that survives argument processing satisfies exactly one
of the two classifications; an assembled batch containing an option that
satisfies neither is rejected with a fatal error and an empty remote trace;
and any option whose `name` is (truthily) present is a release option and
never a tag option, regardless of its `tag`. -/
theorem option_classification (st : RemoteState) (command : String)
    (raws : List String) :
    (∀ cmd opts, processArguments command raws = .ok (cmd, opts) →
      ∀ o ∈ opts,
        (isTagOption o = true ∧ isReleaseOption o = false) ∨
        (isTagOption o = false ∧ isReleaseOption o = true)) ∧
    (∀ opts, processRawOptions raws = .ok opts →
      (∃ o ∈ opts, isTagOption o = false ∧ isReleaseOption o = false) →
      ∃ m, run st command raws = ([], Outcome.fatal m)) ∧
    (∀ o : CliOption, truthy o.name = true →
      isReleaseOption o = true ∧ isTagOption o = false) := by
  refine ⟨?_, ?_, ?_⟩
  · intro cmd opts h o ho
    obtain ⟨-, -, hfind⟩ := processArguments_ok_inv h
    have hnb := List.find?_eq_none.mp hfind o ho
    simp only [Bool.and_eq_true, Bool.not_eq_true', not_and] at hnb
    by_cases ht : isTagOption o = true
    · refine Or.inl ⟨ht, ?_⟩
      by_contra hr
      have hr' : isReleaseOption o = true := by
        cases hrel : isReleaseOption o
        · exact absurd hrel hr
        · rfl
      have := isTagOption_eq_false_of_release hr'
      rw [ht] at this
      cases this
    · have ht' : isTagOption o = false := Bool.eq_false_iff.mpr ht
      rcases hr : isReleaseOption o with hv | hv
      · exact absurd hr (by simpa [ht'] using hnb)
      · exact Or.inr ⟨ht', rfl⟩
  · intro opts hro hbad
    by_cases hc : SUPPORTED_COMMANDS.contains command = true
    · refine ⟨"Expected option to be either a tag or release option", ?_⟩
      apply run_of_processArguments_error
      apply processArguments_error_of_bad hc hro
      obtain ⟨o, ho, h1, h2⟩ := hbad
      exact ⟨o, ho, by simp [h1, h2]⟩
    · refine ⟨"Unsupported command: " ++ command, ?_⟩
      apply run_of_processArguments_error
      unfold processArguments
      rw [Bool.eq_false_iff.mpr hc]
      rfl
  · intro o h
    exact ⟨h, isTagOption_eq_false_of_release h⟩

/-- Witness for C4: a surviving batch classifies exactly-one-way; the batch
assembled from `"tag:,rel:"` (classifiable as neither) is fatally rejected
with no remote call; an option carrying both `name` and `tag` is a release
option and not a tag option. -/
theorem option_classification_witness :
    (∀ o ∈ ([relOpt, tagOpt] : List CliOption),
      (isTagOption o = true ∧ isReleaseOption o = false) ∨
      (isTagOption o = false ∧ isReleaseOption o = true)) ∧
    (∃ m, run sampleState "create" ["tag:,rel:"] = ([], Outcome.fatal m)) ∧
    (isReleaseOption relOpt = true ∧ isTagOption relOpt = false) :=
  ⟨(option_classification sampleState "create"
      ["rel:Beta,tag:v1.2.0,dft:true", "tag:v1"]).1 "create" [relOpt, tagOpt] rfl,
   (option_classification sampleState "create" ["tag:,rel:"]).2.1
      [{ name := some "", tag := some "", draft := false }] rfl
      ⟨{ name := some "", tag := some "", draft := false },
        List.mem_singleton.mpr rfl, by decide, by decide⟩,
   (option_classification sampleState "create" []).2.2 relOpt (by decide)⟩

/-! ### C5 -/

lemma callsPaced_unpaced_cons (p : Event → Bool) (e : Event) (hp : p e = false)
    (rest : List Event) : callsPaced p (e :: rest) = callsPaced p rest := by
  cases rest with
  | nil => simp [callsPaced, hp]
  | cons e2 r => simp [callsPaced, hp]

lemma callsPaced_pair_cons (p : Event → Bool) (e : Event) (rest : List Event)
    (hd : p (Event.delay API_DELAY_MS) = false) :
    callsPaced p (e :: Event.delay API_DELAY_MS :: rest) = callsPaced p rest := by
  have h1 : callsPaced p (e :: Event.delay API_DELAY_MS :: rest) =
      callsPaced p (Event.delay API_DELAY_MS :: rest) := by
    simp [callsPaced, API_DELAY_MS]
  rw [h1, callsPaced_unpaced_cons p _ hd]

lemma callsPaced_flatMap_pair {α : Type} (p : Event → Bool)
    (hd : p (Event.delay API_DELAY_MS) = false) (l : List α) (f : α → Event)
    (rest : List Event) :
    callsPaced p (l.flatMap (fun x => [f x, Event.delay API_DELAY_MS]) ++ rest) =
      callsPaced p rest := by
  induction l with
  | nil => simp
  | cons x xs ih =>
    simp only [List.flatMap_cons, List.append_assoc, List.cons_append,
      List.nil_append]
    rw [callsPaced_pair_cons p _ _ hd, ih]

/-- C5 counterexample: it is not the case that every remote call is followed
by the pacing delay.  In this concrete create-mode run the `getBranch` call
is followed directly by the first create call, and in this concrete check-mode
run the two list calls are not followed by any delay either. -/
theorem pacing_counterexample :
    callsPaced isRemoteCall (runCreate sampleState [tagOpt]).1 = false ∧
    callsPaced isRemoteCall (runChecks sampleState [tagOpt]).1 = false :=
  ⟨rfl, rfl⟩

/-- C5 amended: in create mode every list, delete and create call is followed
by the fixed 2500 ms pacing delay, but the anchor-commit resolution
(`getBranch`) is not; and in check mode the `listTags`/`listReleases` calls
are not followed by any delay — the check trace is exactly the two unpaced
list calls. -/
theorem pacing_amended (st : RemoteState) (options : List CliOption)
    (h : ∀ o ∈ options, isTagOption o = true ∨ isReleaseOption o = true) :
    API_DELAY_MS = 2500 ∧
    callsPaced isPacedCall (runCreate st options).1 = true ∧
    (runChecks st options).1 = [Event.listTags, Event.listReleases] := by
  refine ⟨rfl, ?_, rfl⟩
  have he := runCreate_eq st options h
  have htr : (runCreate st options).1 =
      deleteExistingReleases st.releases ++ deleteExistingTags st.tags ++
        (if options.any isTagOption then [Event.getBranch "main"] else []) ++
        options.flatMap (fun o =>
          [if isReleaseOption o then Event.createRelease o.tag o.name o.draft
           else Event.createRef ("refs/tags/" ++ jsStr o.tag) (some st.mainTipSha),
           Event.delay API_DELAY_MS]) := by rw [he]
  rw [htr]
  simp only [deleteExistingReleases, deleteExistingTags, List.cons_append,
    List.append_assoc]
  rw [callsPaced_pair_cons _ _ _ rfl, callsPaced_flatMap_pair _ rfl,
    callsPaced_pair_cons _ _ _ rfl, callsPaced_flatMap_pair _ rfl]
  by_cases hany : options.any isTagOption = true
  · simp only [hany, if_true, List.singleton_append]
    rw [callsPaced_unpaced_cons _ _ rfl]
    rw [show options.flatMap (fun o =>
        [if isReleaseOption o then Event.createRelease o.tag o.name o.draft
         else Event.createRef ("refs/tags/" ++ jsStr o.tag) (some st.mainTipSha),
         Event.delay API_DELAY_MS]) =
      options.flatMap (fun o =>
        [if isReleaseOption o then Event.createRelease o.tag o.name o.draft
         else Event.createRef ("refs/tags/" ++ jsStr o.tag) (some st.mainTipSha),
         Event.delay API_DELAY_MS]) ++ [] from (List.append_nil _).symm]
    rw [callsPaced_flatMap_pair _ rfl]
    rfl
  · have hanyf : options.any isTagOption = false := Bool.eq_false_iff.mpr hany
    simp only [hanyf, Bool.false_eq_true, if_false, List.nil_append]
    rw [show options.flatMap (fun o =>
        [if isReleaseOption o then Event.createRelease o.tag o.name o.draft
         else Event.createRef ("refs/tags/" ++ jsStr o.tag) (some st.mainTipSha),
         Event.delay API_DELAY_MS]) =
      options.flatMap (fun o =>
        [if isReleaseOption o then Event.createRelease o.tag o.name o.draft
         else Event.createRef ("refs/tags/" ++ jsStr o.tag) (some st.mainTipSha),
         Event.delay API_DELAY_MS]) ++ [] from (List.append_nil _).symm]
    rw [callsPaced_flatMap_pair _ rfl]
    rfl

/-- Witness for the amended C5 at a concrete state and batch. -/
theorem pacing_amended_witness :
    API_DELAY_MS = 2500 ∧
    callsPaced isPacedCall (runCreate sampleState [relOpt, tagOpt]).1 = true ∧
    (runChecks sampleState [relOpt, tagOpt]).1 =
      [Event.listTags, Event.listReleases] :=
  pacing_amended sampleState [relOpt, tagOpt] (by decide)

/-! ### C6 -/

lemma findSome?_eq_head?_filterMap {α β : Type} (f : α → Option β) (l : List α) :
    l.findSome? f = (l.filterMap f).head? := by
  induction l with
  | nil => rfl
  | cons x rest ih =>
    cases hx : f x with
    | none => rw [List.findSome?_cons, hx, List.filterMap_cons, hx, ih]
    | some b => rw [List.findSome?_cons, hx, List.filterMap_cons, hx]; rfl

lemma head?_eq_of_perm_of_agree {α : Type} {l₁ l₂ : List α}
    (hp : List.Perm l₁ l₂) (ha : ∀ v ∈ l₁, ∀ w ∈ l₁, v = w) :
    l₁.head? = l₂.head? := by
  cases l₁ with
  | nil =>
    cases l₂ with
    | nil => rfl
    | cons w t₂ => simpa using hp.length_eq
  | cons v t₁ =>
    cases l₂ with
    | nil => simpa using hp.length_eq
    | cons w t₂ =>
      have hw : w ∈ v :: t₁ := hp.mem_iff.mpr (List.mem_cons_self w t₂)
      have hv : v ∈ v :: t₁ := List.mem_cons_self v t₁
      simpa using ha v hv w hw

lemma processParts_cons_inv {s : String} {rest : List String}
    {ps : List PartResult} (h : processParts (s :: rest) = .ok ps) :
    ∃ p ts, processOptionPart s = .ok p ∧ processParts rest = .ok ts ∧
      ps = p :: ts := by
  unfold processParts at h
  cases hs : processOptionPart s with
  | error m => rw [hs] at h; cases h
  | ok p =>
    rw [hs] at h
    have h' : (match processParts rest with
        | .error m => (Except.error m : Except String (List PartResult))
        | .ok ts => Except.ok (p :: ts)) = Except.ok ps := h
    cases hr : processParts rest with
    | error m => rw [hr] at h'; cases h'
    | ok ts =>
      rw [hr] at h'
      injection h' with h1
      exact ⟨p, ts, rfl, rfl, h1.symm⟩

lemma processParts_perm {l₁ l₂ : List String} (hp : List.Perm l₁ l₂) :
    ∀ {ps : List PartResult}, processParts l₁ = .ok ps →
      ∃ ps', processParts l₂ = .ok ps' ∧ List.Perm ps ps' := by
  induction hp with
  | nil =>
    intro ps h
    injection h with h1
    exact ⟨ps, by rw [← h1]; rfl, List.Perm.refl ps⟩
  | cons x htail ih =>
    intro ps h
    obtain ⟨p, ts, hx, ht, hps⟩ := processParts_cons_inv h
    obtain ⟨ts', ht', hpt⟩ := ih ht
    refine ⟨p :: ts', ?_, hps ▸ List.Perm.cons p hpt⟩
    unfold processParts
    rw [hx, ht']
  | swap x y l =>
    intro ps h
    obtain ⟨py, ts1, hy, ht1, hps1⟩ := processParts_cons_inv h
    obtain ⟨px, ts, hx, ht, hps2⟩ := processParts_cons_inv ht1
    refine ⟨px :: py :: ts, ?_, ?_⟩
    · unfold processParts
      rw [hx]
      unfold processParts
      rw [hy, ht]
    · rw [hps1, hps2]
      exact List.Perm.swap px py ts
  | trans h₁ h₂ ih₁ ih₂ =>
    intro ps h
    obtain ⟨ps₁, hok₁, hp₁⟩ := ih₁ h
    obtain ⟨ps₂, hok₂, hp₂⟩ := ih₂ hok₁
    exact ⟨ps₂, hok₂, hp₁.trans hp₂⟩

/-- C6 counterexample: "tag:a,tag:b" and its part-permutation "tag:b,tag:a"
assemble different Options (tag "a" versus tag "b"), refuting
order-independence for every permutation of the parts. -/
theorem parsing_order_counterexample :
    List.Perm (jsSplit ',' "tag:a,tag:b") (jsSplit ',' "tag:b,tag:a") ∧
    processRawOption "tag:a,tag:b" =
      .ok { name := none, tag := some "a", draft := false } ∧
    processRawOption "tag:b,tag:a" =
      .ok { name := none, tag := some "b", draft := false } ∧
    ({ name := none, tag := some "a", draft := false } : CliOption) ≠
      { name := none, tag := some "b", draft := false } :=
  ⟨by decide, rfl, rfl, by decide⟩

/-- C6 amended: parsing of the comma-separated parts of one raw option
string is order-independent provided no two parts contribute different
values for the same recognized field (in particular whenever each field
occurs at most once): for any permutation of the split parts the assembled
Option is identical, built from the first occurrence of each recognized
field with `draft` defaulting to false. -/
theorem parsing_order_independent (raw raw' : String) (ps : List PartResult)
    (hperm : List.Perm (jsSplit ',' raw) (jsSplit ',' raw'))
    (hok : processParts (jsSplit ',' raw) = .ok ps)
    (htag : ∀ v ∈ ps.filterMap partTag, ∀ w ∈ ps.filterMap partTag, v = w)
    (hname : ∀ v ∈ ps.filterMap partName, ∀ w ∈ ps.filterMap partName, v = w)
    (hdraft : ∀ v ∈ ps.filterMap partDraft, ∀ w ∈ ps.filterMap partDraft, v = w) :
    processRawOption raw' = processRawOption raw := by
  obtain ⟨ps', hok', hp⟩ := processParts_perm hperm hok
  unfold processRawOption
  rw [hok, hok']
  show Except.ok (assembleParts ps') = Except.ok (assembleParts ps)
  have htagEq : ps'.findSome? partTag = ps.findSome? partTag := by
    rw [findSome?_eq_head?_filterMap, findSome?_eq_head?_filterMap]
    exact (head?_eq_of_perm_of_agree (hp.filterMap partTag) htag).symm
  have hnameEq : ps'.findSome? partName = ps.findSome? partName := by
    rw [findSome?_eq_head?_filterMap, findSome?_eq_head?_filterMap]
    exact (head?_eq_of_perm_of_agree (hp.filterMap partName) hname).symm
  have hdraftEq : ps'.findSome? partDraft = ps.findSome? partDraft := by
    rw [findSome?_eq_head?_filterMap, findSome?_eq_head?_filterMap]
    exact (head?_eq_of_perm_of_agree (hp.filterMap partDraft) hdraft).symm
  unfold assembleParts
  rw [htagEq, hnameEq, hdraftEq]

/-- Witness for the amended C6: `"rel:v1,dft:true"` and `"dft:true,rel:v1"`
assemble the same Option. -/
theorem parsing_order_independent_witness :
    processRawOption "dft:true,rel:v1" = processRawOption "rel:v1,dft:true" :=
  parsing_order_independent "rel:v1,dft:true" "dft:true,rel:v1"
    [.nameRes (some "v1"), .draftRes true] (by decide) rfl
    (by decide) (by decide) (by decide)

/-! ### C7 -/

lemma run_check_eq {st : RemoteState} {raws : List String}
    {options : List CliOption}
    (hok : processArguments "check" raws = .ok ("check", options))
    (hne : options ≠ []) :
    run st "check" raws =
      ((runChecks st options).1,
        Outcome.completed (runChecks st options).2.exitCode) := by
  unfold run
  rw [hok]
  have hlen : (options.length == 0) = false := by
    cases options with
    | nil => exact absurd rfl hne
    | cons o t => rfl
  simp only [hlen, Bool.false_eq_true, if_false]
  rfl

lemma runChecks_exitCode_iff (st : RemoteState) (options : List CliOption) :
    (runChecks st options).2.exitCode = 0 ↔
      (runChecks st options).2.tagsNotFound = [] ∧
        (runChecks st options).2.releasesNotFound = [] := by
  have hdef : (runChecks st options).2.exitCode =
      if !((runChecks st options).2.tagsNotFound).isEmpty ||
          !((runChecks st options).2.releasesNotFound).isEmpty then 1 else 0 := rfl
  by_cases hA : (runChecks st options).2.tagsNotFound = []
  · by_cases hB : (runChecks st options).2.releasesNotFound = []
    · simp [hdef, hA, hB]
    · simp [hdef, hA, hB, List.isEmpty_iff]
  · simp [hdef, hA, List.isEmpty_iff]

/-- C7: in check mode both partitions are always checked (the trace is both
list calls, with no mutating call), every unmatched expectation of either
partition is reported in the run's outcome, and a failed check is not a
fatal error: the run completes with the check's exit code, which is `0`
exactly when nothing was missing. -/
theorem check_mode_reporting (st : RemoteState) (raws : List String)
    (options : List CliOption)
    (hok : processArguments "check" raws = .ok ("check", options))
    (hne : options ≠ []) :
    run st "check" raws =
      ((runChecks st options).1,
        Outcome.completed (runChecks st options).2.exitCode) ∧
    (runChecks st options).1 = [Event.listTags, Event.listReleases] ∧
    (∀ o ∈ options, isTagOption o = true →
      (∀ t ∈ st.tags, ¬(some t.name = o.tag)) →
      o ∈ (runChecks st options).2.tagsNotFound) ∧
    (∀ o ∈ options, isReleaseOption o = true →
      (∀ r ∈ st.releases, ¬(some r.tag_name = o.tag ∧ some r.name = o.name ∧
        r.draft = o.draft)) →
      o ∈ (runChecks st options).2.releasesNotFound) ∧
    ((runChecks st options).2.exitCode = 0 ↔
      (runChecks st options).2.tagsNotFound = [] ∧
        (runChecks st options).2.releasesNotFound = []) := by
  refine ⟨run_check_eq hok hne, rfl, ?_, ?_, runChecks_exitCode_iff st options⟩
  · intro o ho hto hunm
    show o ∈ (options.filter isTagOption).filter
      (fun o => (st.tags.find? (fun t => some t.name == o.tag)).isNone)
    refine List.mem_filter.mpr ⟨List.mem_filter.mpr ⟨ho, hto⟩, ?_⟩
    have : st.tags.find? (fun t => some t.name == o.tag) = none :=
      List.find?_eq_none.mpr (fun t ht => by
        simp only [beq_iff_eq]
        exact hunm t ht)
    rw [this]
    rfl
  · intro o ho hro hunm
    show o ∈ (options.filter isReleaseOption).filter
      (fun o => (st.releases.find? (fun r =>
        some r.tag_name == o.tag && some r.name == o.name &&
          r.draft == o.draft)).isNone)
    refine List.mem_filter.mpr ⟨List.mem_filter.mpr ⟨ho, hro⟩, ?_⟩
    have : st.releases.find? (fun r =>
        some r.tag_name == o.tag && some r.name == o.name &&
          r.draft == o.draft) = none :=
      List.find?_eq_none.mpr (fun r hr => by
        simp only [Bool.and_eq_true, beq_iff_eq]
        intro hcon
        exact hunm r hr ⟨hcon.1.1, hcon.1.2, hcon.2⟩)
    rw [this]
    rfl

/-- Witness for C7 at a concrete state and raw options. -/
theorem check_mode_reporting_witness :
    run sampleState "check" ["tag:v1"] =
      ((runChecks sampleState [tagOpt]).1,
        Outcome.completed (runChecks sampleState [tagOpt]).2.exitCode) ∧
    (runChecks sampleState [tagOpt]).1 =
      [Event.listTags, Event.listReleases] ∧
    (∀ o ∈ ([tagOpt] : List CliOption), isTagOption o = true →
      (∀ t ∈ sampleState.tags, ¬(some t.name = o.tag)) →
      o ∈ (runChecks sampleState [tagOpt]).2.tagsNotFound) ∧
    (∀ o ∈ ([tagOpt] : List CliOption), isReleaseOption o = true →
      (∀ r ∈ sampleState.releases,
        ¬(some r.tag_name = o.tag ∧ some r.name = o.name ∧ r.draft = o.draft)) →
      o ∈ (runChecks sampleState [tagOpt]).2.releasesNotFound) ∧
    ((runChecks sampleState [tagOpt]).2.exitCode = 0 ↔
      (runChecks sampleState [tagOpt]).2.tagsNotFound = [] ∧
        (runChecks sampleState [tagOpt]).2.releasesNotFound = []) :=
  check_mode_reporting sampleState ["tag:v1"] [tagOpt] rfl (by decide)

/-! ### C9 -/

/-- C9: both checks run unconditionally — the check trace always contains the
`listTags` and `listReleases` calls even when the corresponding partition is
empty — and an empty partition reports nothing missing, so the exit code is
then decided by the other partition alone. -/
theorem check_empty_partitions (st : RemoteState) (options : List CliOption) :
    (runChecks st options).1 = [Event.listTags, Event.listReleases] ∧
    (options.filter isTagOption = [] →
      (runChecks st options).2.tagsNotFound = []) ∧
    (options.filter isReleaseOption = [] →
      (runChecks st options).2.releasesNotFound = []) ∧
    (options.filter isTagOption = [] →
      (runChecks st options).2.exitCode =
        if (runChecks st options).2.releasesNotFound = [] then 0 else 1) := by
  refine ⟨rfl, ?_, ?_, ?_⟩
  · intro h
    show (options.filter isTagOption).filter _ = []
    rw [h]
    rfl
  · intro h
    show (options.filter isReleaseOption).filter _ = []
    rw [h]
    rfl
  · intro h
    have hA : (runChecks st options).2.tagsNotFound = [] := by
      show (options.filter isTagOption).filter _ = []
      rw [h]
      rfl
    have hdef : (runChecks st options).2.exitCode =
        if !((runChecks st options).2.tagsNotFound).isEmpty ||
            !((runChecks st options).2.releasesNotFound).isEmpty then 1 else 0 := rfl
    by_cases hB : (runChecks st options).2.releasesNotFound = []
    · simp [hdef, hA, hB]
    · simp [hdef, hA, hB, List.isEmpty_iff]

/-- Witness for C9: a batch with only a release option still issues the
`listTags` call and its empty tag partition reports nothing. -/
theorem check_empty_partitions_witness :
    (runChecks sampleState [relOpt]).1 =
      [Event.listTags, Event.listReleases] ∧
    (([relOpt] : List CliOption).filter isTagOption = [] →
      (runChecks sampleState [relOpt]).2.tagsNotFound = []) ∧
    (([relOpt] : List CliOption).filter isReleaseOption = [] →
      (runChecks sampleState [relOpt]).2.releasesNotFound = []) ∧
    (([relOpt] : List CliOption).filter isTagOption = [] →
      (runChecks sampleState [relOpt]).2.exitCode =
        if (runChecks sampleState [relOpt]).2.releasesNotFound = [] then 0
        else 1) :=
  check_empty_partitions sampleState [relOpt]

/-! ### C8 -/

lemma processOptionPart_error_of_unrecognized {part : String}
    (h : recognizedKey part = false) :
    processOptionPart part = .error ("Unexpected option part: " ++ part) := by
  unfold recognizedKey at h
  simp only [Bool.or_eq_false_iff] at h
  obtain ⟨⟨h1, h2⟩, h3⟩ := h
  simp only [processOptionPart]
  rw [h1, h2, h3]
  rfl

lemma processParts_error_of_bad {parts : List String}
    (h : ∃ part ∈ parts, recognizedKey part = false) :
    ∃ m, processParts parts = .error m := by
  induction parts with
  | nil =>
    obtain ⟨p, hp, -⟩ := h
    cases hp
  | cons s rest ih =>
    obtain ⟨p, hp, hbad⟩ := h
    rcases List.mem_cons.mp hp with rfl | hmem
    · refine ⟨"Unexpected option part: " ++ p, ?_⟩
      unfold processParts
      rw [processOptionPart_error_of_unrecognized hbad]
    · cases hps : processOptionPart s with
      | error m =>
        refine ⟨m, ?_⟩
        unfold processParts
        rw [hps]
      | ok p' =>
        obtain ⟨m, hm⟩ := ih ⟨p, hmem, hbad⟩
        refine ⟨m, ?_⟩
        unfold processParts
        rw [hps, hm]

lemma processRawOption_error_of_parts {raw : String} {m : String}
    (h : processParts (jsSplit ',' raw) = .error m) :
    processRawOption raw = .error m := by
  unfold processRawOption
  rw [h]
  rfl

lemma processRawOptions_error_of_bad {raws : List String}
    (h : ∃ raw ∈ raws, ∃ m, processRawOption raw = .error m) :
    ∃ m, processRawOptions raws = .error m := by
  induction raws with
  | nil =>
    obtain ⟨raw, hr, -⟩ := h
    cases hr
  | cons raw rest ih =>
    obtain ⟨r, hr, m, hm⟩ := h
    rcases List.mem_cons.mp hr with rfl | hmem
    · refine ⟨m, ?_⟩
      unfold processRawOptions
      rw [hm]
    · cases hraw : processRawOption raw with
      | error m' =>
        refine ⟨m', ?_⟩
        unfold processRawOptions
        rw [hraw]
      | ok o =>
        obtain ⟨m', hm'⟩ := ih ⟨r, hmem, m, hm⟩
        refine ⟨m', ?_⟩
        unfold processRawOptions
        rw [hraw, hm']

lemma processArguments_error_of_options_error {command : String}
    {raws : List String} {m : String}
    (hc : SUPPORTED_COMMANDS.contains command = true)
    (h : processRawOptions raws = .error m) :
    processArguments command raws = .error m := by
  unfold processArguments
  simp only [hc, Bool.not_true, Bool.false_eq_true, if_false]
  rw [h]

/-- C8: each of the four fatal validation errors — unsupported command, an
unrecognized key in any part of any raw option, an assembled option that
classifies as neither kind, and zero options supplied — terminates the run
with a fatal outcome and an empty remote trace (no remote call was issued),
and a fatal outcome always carries exit status 1. -/
theorem fatal_validation_errors (st : RemoteState) (command : String)
    (raws : List String) :
    (SUPPORTED_COMMANDS.contains command = false →
      run st command raws =
        ([], Outcome.fatal ("Unsupported command: " ++ command))) ∧
    ((∃ raw ∈ raws, ∃ part ∈ jsSplit ',' raw, recognizedKey part = false) →
      ∃ m, run st command raws = ([], Outcome.fatal m)) ∧
    (∀ opts, processRawOptions raws = .ok opts →
      (∃ o ∈ opts, isTagOption o = false ∧ isReleaseOption o = false) →
      ∃ m, run st command raws = ([], Outcome.fatal m)) ∧
    (SUPPORTED_COMMANDS.contains command = true → raws = [] →
      run st command raws = ([], Outcome.fatal "No options supplied.")) ∧
    (∀ o : Outcome, (∃ m, o = Outcome.fatal m) → o.exitStatus = 1) := by
  refine ⟨?_, ?_, ?_, ?_, ?_⟩
  · intro hc
    apply run_of_processArguments_error
    unfold processArguments
    rw [hc]
    rfl
  · intro hbad
    by_cases hc : SUPPORTED_COMMANDS.contains command = true
    · obtain ⟨raw, hraw, part, hpart, hkey⟩ := hbad
      obtain ⟨m, hm⟩ := processParts_error_of_bad ⟨part, hpart, hkey⟩
      obtain ⟨m', hm'⟩ := processRawOptions_error_of_bad
        ⟨raw, hraw, m, processRawOption_error_of_parts hm⟩
      exact ⟨m', run_of_processArguments_error
        (processArguments_error_of_options_error hc hm')⟩
    · refine ⟨"Unsupported command: " ++ command, ?_⟩
      apply run_of_processArguments_error
      unfold processArguments
      rw [Bool.eq_false_iff.mpr hc]
      rfl
  · intro opts hro hbad
    by_cases hc : SUPPORTED_COMMANDS.contains command = true
    · refine ⟨"Expected option to be either a tag or release option", ?_⟩
      apply run_of_processArguments_error
      apply processArguments_error_of_bad hc hro
      obtain ⟨o, ho, h1, h2⟩ := hbad
      exact ⟨o, ho, by simp [h1, h2]⟩
    · refine ⟨"Unsupported command: " ++ command, ?_⟩
      apply run_of_processArguments_error
      unfold processArguments
      rw [Bool.eq_false_iff.mpr hc]
      rfl
  · intro hc hraws
    subst hraws
    have hpa : processArguments command [] = .ok (command, []) := by
      unfold processArguments
      simp only [hc, Bool.not_true, Bool.false_eq_true, if_false]
      rfl
    unfold run
    rw [hpa]
    rfl
  · rintro o ⟨m, rfl⟩
    rfl

/-- Witness for C8: the four fatal cases at concrete inputs. -/
theorem fatal_validation_errors_witness :
    run sampleState "bogus" ["tag:v1"] =
      ([], Outcome.fatal "Unsupported command: bogus") ∧
    (∃ m, run sampleState "create" ["foo:bar"] = ([], Outcome.fatal m)) ∧
    (∃ m, run sampleState "check" ["tag:,rel:"] = ([], Outcome.fatal m)) ∧
    run sampleState "create" [] = ([], Outcome.fatal "No options supplied.") ∧
    (Outcome.fatal "x").exitStatus = 1 :=
  ⟨(fatal_validation_errors sampleState "bogus" ["tag:v1"]).1 (by decide),
   (fatal_validation_errors sampleState "create" ["foo:bar"]).2.1
     ⟨"foo:bar", List.mem_singleton.mpr rfl, "foo:bar", by decide, by decide⟩,
   (fatal_validation_errors sampleState "check" ["tag:,rel:"]).2.2.1
     [{ name := some "", tag := some "", draft := false }] rfl
     ⟨{ name := some "", tag := some "", draft := false },
       List.mem_singleton.mpr rfl, by decide, by decide⟩,
   (fatal_validation_errors sampleState "create" []).2.2.2.1 (by decide) rfl,
   (fatal_validation_errors sampleState "create" []).2.2.2.2
     (Outcome.fatal "x") ⟨"x", rfl⟩⟩

/-! ### C10 -/

/-- C10: a part with an empty value (`"tag:"`, `"rel:"`) sets the field to
the empty string; both classification predicates treat the empty string the
same as an absent field; consequently the option assembled from only
empty-valued parts fails both predicates and the run is fatally rejected
with exit status 1 and no remote call. -/
theorem empty_valued_parts (st : RemoteState) (command : String)
    (hc : SUPPORTED_COMMANDS.contains command = true) :
    processOptionPart "tag:" = .ok (.tagRes (some "")) ∧
    processOptionPart "rel:" = .ok (.nameRes (some "")) ∧
    (∀ n d, isTagOption { name := n, tag := some "", draft := d } =
      isTagOption { name := n, tag := none, draft := d }) ∧
    (∀ t d, isReleaseOption { name := some "", tag := t, draft := d } =
      isReleaseOption { name := none, tag := t, draft := d }) ∧
    processRawOption "tag:,rel:" =
      .ok { name := some "", tag := some "", draft := false } ∧
    run st command ["tag:,rel:"] =
      ([], Outcome.fatal "Expected option to be either a tag or release option") ∧
    Outcome.exitStatus
      (Outcome.fatal "Expected option to be either a tag or release option") =
      1 := by
  refine ⟨rfl, rfl, fun n d => rfl, fun t d => rfl, rfl, ?_, rfl⟩
  apply run_of_processArguments_error
  exact @processArguments_error_of_bad command ["tag:,rel:"]
    [{ name := some "", tag := some "", draft := false }] hc rfl
    ⟨{ name := some "", tag := some "", draft := false },
      List.mem_singleton.mpr rfl, by decide⟩

/-- Witness for C10 with the `create` command at a concrete state. -/
theorem empty_valued_parts_witness :
    processOptionPart "tag:" = .ok (.tagRes (some "")) ∧
    processOptionPart "rel:" = .ok (.nameRes (some "")) ∧
    (∀ n d, isTagOption { name := n, tag := some "", draft := d } =
      isTagOption { name := n, tag := none, draft := d }) ∧
    (∀ t d, isReleaseOption { name := some "", tag := t, draft := d } =
      isReleaseOption { name := none, tag := t, draft := d }) ∧
    processRawOption "tag:,rel:" =
      .ok { name := some "", tag := some "", draft := false } ∧
    run sampleState "create" ["tag:,rel:"] =
      ([], Outcome.fatal "Expected option to be either a tag or release option") ∧
    Outcome.exitStatus
      (Outcome.fatal "Expected option to be either a tag or release option") =
      1 :=
  empty_valued_parts sampleState "create" (by decide)

end DTR
